import Mathlib

/-
  Verification of the Drive synchronization engine of python-igitur
  (igitur/drive.py), shallowly embedded in Lean 4.

  The embedding models:
  * the string helpers used by the pipeline (pathlib stem/suffix,
    lower-casing, substring tests),
  * `GaudeamDriveFolder.create_sub_folder`'s ownership-inheritance rule,
  * the paginated listing loops of `get_sub_folders` / `get_files`,
  * the recursive upload-sync `upload_folder`, with remote state as a tree
    and the HTTP side effects as an explicit action trace,
  * the resized-upload pipeline (`upload_folder_resized` and its helpers),
  * the cleanup passes `delete_duplicates` and `delete_remote_orphan_files`.

  The remote store is the external collaborator: a remote folder is the
  tree of entities it would report, a listing call returns the children
  recorded in that tree, an upload registers a file whose download name is
  the uploaded file's original filename (spec 3, "download name"), and the
  outcome of an upload is given by an oracle `ok` since the server may
  fail any single upload.
-/

namespace Igitur

/-! ## String helpers

`path_stem`/`path_suffix` model `pathlib.PurePath.stem`/`.suffix` for a
plain file name: the suffix starts at the last dot, provided that dot is
neither the first nor the last character of the name.
`str_contains_sub` models Python's substring test `needle in hay`, and
`str_le` models Python's lexicographic `<=` on strings (by code point),
the order used by `sorted(..., key=...)`. -/

def rfind_dot (cs : List Char) : Option Nat :=
  match cs.reverse.findIdx? (fun c => c == '.') with
  | none => none
  | some j => some (cs.length - 1 - j)

def path_suffix (nm : String) : String :=
  match rfind_dot nm.data with
  | none => ""
  | some i => if 0 < i ∧ i < nm.data.length - 1 then String.mk (nm.data.drop i) else ""

def path_stem (nm : String) : String :=
  match rfind_dot nm.data with
  | none => nm
  | some i => if 0 < i ∧ i < nm.data.length - 1 then String.mk (nm.data.take i) else nm

def str_to_lower (s : String) : String := String.mk (s.data.map Char.toLower)

def list_contains_sub (needle : List Char) : List Char → Bool
  | [] => needle.isEmpty
  | c :: rest => needle.isPrefixOf (c :: rest) || list_contains_sub needle rest

def str_contains_sub (needle hay : String) : Bool :=
  list_contains_sub needle.data hay.data

def char_list_le : List Char → List Char → Bool
  | [], _ => true
  | _ :: _, [] => false
  | a :: as, b :: bs => if a = b then char_list_le as bs else decide (a < b)

def str_le (a b : String) : Bool := char_list_le a.data b.data

/-! ## Errors

`IgiturErr.configuration` stands for the `IgiturError` raised by
`create_sub_folder` on an unsupported owner type (the spec's
`ConfigurationError`); `IgiturErr.remote` stands for the `IgiturError`
raised on a non-2xx response (the spec's `RemoteError`). -/

inductive IgiturErr where
  | configuration (msg : String)
  | remote (msg : String)
deriving DecidableEq, Repr

/-! ## Ownership inheritance (`GaudeamDriveFolder.create_sub_folder`)

The parent folder's properties carry `owner_type` (a JSON string or
null), `owner_id`, and — when the owner is a group — `restrict_to.id`.
`create_sub_folder_request` builds the body of the `POST
/api/v1/drive/folders` call exactly as drive.py lines 57-89 do; returning
`.error` models raising before any request is issued. -/

structure FolderProperties where
  owner_type : Option String
  owner_id : Option Nat
  restrict_to : Option Nat
deriving DecidableEq, Repr

structure CreateFolderRequest where
  description : String
  name : String
  owner_id : Option Nat
  parent_id : String
  owner_type : Option String
  restrict_to_id : Option Nat
deriving DecidableEq, Repr

def create_sub_folder_request (props : FolderProperties) (parent_folder_id : String)
    (name : String) (description : String) : Except IgiturErr CreateFolderRequest :=
  match props.owner_type with
  | some "Group" =>
      .ok { description := description, name := name, owner_id := props.owner_id,
            parent_id := parent_folder_id, owner_type := some "Group",
            restrict_to_id := props.restrict_to }
  | some "GroupMember" =>
      .ok { description := description, name := name, owner_id := props.owner_id,
            parent_id := parent_folder_id, owner_type := some "GroupMember",
            restrict_to_id := none }
  | none =>
      .ok { description := description, name := name, owner_id := props.owner_id,
            parent_id := parent_folder_id, owner_type := none,
            restrict_to_id := none }
  | some _ =>
      .error (.configuration "cannot create file as parent is not owned by GroupMember or Group")

/-! ## Paginated listing (`get_sub_folders` / `get_files`)

A raw listing entry carries the `type` discriminator and a name.  The
remote listing of a folder is a fixed sequence `entries`; a request at
`offset` returns the page `entries[offset : offset+80]`.
`list_children_loop` is the while-loop shared by `get_sub_folders`
(drive.py 101-131) and `get_files` (133-163): it stops on an empty page,
otherwise keeps the entries accepted by the type filter, and stops once a
page shorter than the limit was received.  Besides the filtered results
it returns the list of offsets at which requests were issued. -/

structure RawEntry where
  entry_type : String
  entry_name : String
deriving DecidableEq, Repr

def DIRECTORY_LIST_LIMIT : Nat := 80

def pageAt (entries : List RawEntry) (offset : Nat) : List RawEntry :=
  (entries.drop offset).take DIRECTORY_LIST_LIMIT

def is_folder_entry (e : RawEntry) : Bool :=
  e.entry_type == "Folder" || e.entry_type == "Gallery"

def is_file_entry (e : RawEntry) : Bool :=
  e.entry_type == "Photo" || e.entry_type == "DriveFile"

def list_children_loop (keep : RawEntry → Bool) (entries : List RawEntry) (offset : Nat) :
    List RawEntry × List Nat :=
  if (pageAt entries offset).isEmpty then ([], [offset])
  else if hshort : (pageAt entries offset).length < DIRECTORY_LIST_LIMIT then
    ((pageAt entries offset).filter keep, [offset])
  else
    let r := list_children_loop keep entries (offset + DIRECTORY_LIST_LIMIT)
    ((pageAt entries offset).filter keep ++ r.1, offset :: r.2)
termination_by entries.length - offset
decreasing_by
  simp only [pageAt, List.length_take, List.length_drop, DIRECTORY_LIST_LIMIT,
    Nat.not_lt] at hshort ⊢
  omega

def get_sub_folders (entries : List RawEntry) : List RawEntry × List Nat :=
  list_children_loop is_folder_entry entries 0

def get_files (entries : List RawEntry) : List RawEntry × List Nat :=
  list_children_loop is_file_entry entries 0

/-! ## The remote tree and the upload-sync engine

A remote file has a display `name` (extension stripped) and a
`download_name` (the original filename, the identity used by all
existence checks).  A remote folder is a tree node.  The side effects of
a sync run are recorded as a trace of `Action`s: one `listFiles` /
`listFolders` per `get_files()` / `get_sub_folders()` call, and one
mutation action per upload, create or delete request. -/

structure RFile where
  name : String
  download_name : String
deriving DecidableEq, Repr

inductive RFolder where
  | node (name : String) (files : List RFile) (subs : List RFolder)

def RFolder.name : RFolder → String
  | .node n _ _ => n

def RFolder.files : RFolder → List RFile
  | .node _ fs _ => fs

def RFolder.subs : RFolder → List RFolder
  | .node _ _ ss => ss

def RFolder.addFile : RFolder → RFile → RFolder
  | .node n fs ss, f => .node n (fs ++ [f]) ss

def RFolder.setSub : RFolder → Nat → RFolder → RFolder
  | .node n fs ss, i, s => .node n fs (ss.set i s)

def RFolder.addSub : RFolder → RFolder → RFolder
  | .node n fs ss, s => .node n fs (ss ++ [s])

/-- The first sub-folder whose name equals `nm`, together with its
position — the `for sub_folder in self.get_sub_folders(): if
sub_folder.get_name() == entry.name: break` pattern of drive.py. -/
def findFirstSub (nm : String) : List RFolder → Option (Nat × RFolder)
  | [] => none
  | s :: ss =>
      if s.name == nm then some (0, s)
      else (findFirstSub nm ss).map (fun p => (p.1 + 1, p.2))

inductive Action where
  | listFiles
  | listFolders
  | uploadFile (download_name : String)
  | createFolder (name : String)
  | deleteFile (download_name : String)
  | deleteFolder (name : String)
deriving DecidableEq, Repr

def Action.isUpload : Action → Bool
  | .uploadFile _ => true
  | _ => false

def Action.isCreate : Action → Bool
  | .createFolder _ => true
  | _ => false

def Action.isDelete : Action → Bool
  | .deleteFile _ => true
  | .deleteFolder _ => true
  | _ => false

/-- A local filesystem entry: a file (with its filename) or a directory
(with its name and children). -/
inductive LocalEntry where
  | file (name : String)
  | dir (name : String) (entries : List LocalEntry)

/-- The target of a local path argument: nonexistent, a file, or a
directory — what `Path.is_dir()` discriminates. -/
inductive LocalPath where
  | missing
  | entry (e : LocalEntry)

def LocalPath.is_dir : LocalPath → Bool
  | .entry (.dir _ _) => true
  | _ => false

mutual
/-- The body of the `for entry in local_folder_path.iterdir()` loop of
`upload_folder` (drive.py 251-281) for one entry, against remote state
`r`.  A file entry first walks the current `get_files()` listing and is
skipped when some remote download name equals its filename; otherwise it
is uploaded, which succeeds iff the server oracle `ok` accepts it; a
successful upload registers a remote file whose display name is the
local stem and whose download name is the local filename.  A directory
entry walks `get_sub_folders()`, descends into the first name match or
creates the sub-folder, and recurses.  Returns (success, new remote
state, action trace). -/
def uploadEntryF (ok : String → Bool) : LocalEntry → RFolder → Bool × RFolder × List Action
  | .file n, r =>
      if r.files.any (fun f => f.download_name == n) then (true, r, [Action.listFiles])
      else if ok n then
        (true, r.addFile ⟨path_stem n, n⟩, [Action.listFiles, Action.uploadFile n])
      else (false, r, [Action.listFiles, Action.uploadFile n])
  | .dir n ents, r =>
      match findFirstSub n r.subs with
      | some p =>
          let q := uploadListF ok ents p.2
          (q.1, r.setSub p.1 q.2.1, Action.listFolders :: q.2.2)
      | none =>
          let q := uploadListF ok ents (RFolder.node n [] [])
          (q.1, r.addSub q.2.1, Action.listFolders :: Action.createFolder n :: q.2.2)

/-- `upload_folder`'s loop over the entries of a local directory,
threading the remote state; any failed entry aborts immediately
(fail-fast) and no later entry is processed. -/
def uploadListF (ok : String → Bool) : List LocalEntry → RFolder → Bool × RFolder × List Action
  | [], r => (true, r, [])
  | e :: es, r =>
      let q1 := uploadEntryF ok e r
      if q1.1 then
        let q2 := uploadListF ok es q1.2.1
        (q2.1, q2.2.1, q1.2.2 ++ q2.2.2)
      else (false, q1.2.1, q1.2.2)
end

/-- `GaudeamDriveFolder.upload_folder` (drive.py 237-282): returns
`False` with no remote request at all when the local path is not a
directory, else runs the entry loop. -/
def upload_folder (ok : String → Bool) (local_folder_path : LocalPath) (r : RFolder) :
    Bool × RFolder × List Action :=
  match local_folder_path with
  | .entry (.dir _ ents) => uploadListF ok ents r
  | _ => (false, r, [])

example :
    uploadListF (fun _ => true) [.file "a.txt"] (.node "root" [] []) =
      (true, .node "root" [⟨"a", "a.txt"⟩] [], [Action.listFiles, Action.uploadFile "a.txt"]) := rfl

example :
    uploadListF (fun _ => true) [.dir "d" [.file "b.jpg"]] (.node "root" [] []) =
      (true, .node "root" [] [.node "d" [⟨"b", "b.jpg"⟩] []],
        [Action.listFolders, Action.createFolder "d", Action.listFiles, Action.uploadFile "b.jpg"]) := rfl

/-! ### The extension order on remote trees

Running upload-sync only ever grows a remote tree: files are appended,
existing sub-folders are themselves extended in place, new sub-folders
are appended.  `Extends r r'` captures exactly this. -/

inductive Extends : RFolder → RFolder → Prop where
  | node : ∀ (nm : String) (fs fs' : List RFile) (ss ss' ex : List RFolder),
      List.Forall₂ Extends ss ss' →
      Extends (.node nm fs ss) (.node nm (fs ++ fs') (ss' ++ ex))

mutual
theorem extends_refl : ∀ r : RFolder, Extends r r
  | .node nm fs ss => by
      simpa using Extends.node nm fs [] ss ss [] (extends_refl_list ss)
theorem extends_refl_list : ∀ ss : List RFolder, List.Forall₂ Extends ss ss
  | [] => .nil
  | s :: ss => .cons (extends_refl s) (extends_refl_list ss)
end

theorem Extends.name_eq : ∀ {a b : RFolder}, Extends a b → b.name = a.name
  | _, _, .node _ _ _ _ _ _ _ => rfl

theorem Extends.files_eq : ∀ {a b : RFolder}, Extends a b → ∃ fs', b.files = a.files ++ fs'
  | _, _, .node _ _ fs' _ _ _ _ => ⟨fs', rfl⟩

theorem Extends.subs_rel : ∀ {a b : RFolder}, Extends a b →
    ∃ ss' ex, b.subs = ss' ++ ex ∧ List.Forall₂ Extends a.subs ss'
  | _, _, .node _ _ _ _ ss' ex h => ⟨ss', ex, rfl, h⟩

theorem forall₂_append_split {α β : Type} {R : α → β → Prop} :
    ∀ {xs ys : List α} {zs : List β}, List.Forall₂ R (xs ++ ys) zs →
      ∃ zs1 zs2, zs = zs1 ++ zs2 ∧ List.Forall₂ R xs zs1 ∧ List.Forall₂ R ys zs2 := by
  intro xs
  induction xs with
  | nil => intro ys zs h; exact ⟨[], zs, rfl, .nil, h⟩
  | cons x xs ih =>
      intro ys zs h
      cases h with
      | cons hx ht =>
          rename_i z zs'
          obtain ⟨z1, z2, rfl, h1, h2⟩ := ih ht
          exact ⟨z :: z1, z2, rfl, .cons hx h1, h2⟩

mutual
theorem extends_trans : ∀ {a b c : RFolder}, Extends a b → Extends b c → Extends a c
  | _, _, _, .node nm fs fs1 ss ss1 ex1 h1, h2 => by
      cases h2 with
      | node _ _ fs2 _ ss2 ex2 h2' =>
          obtain ⟨z1, z2, rfl, ha, hb⟩ := forall₂_append_split h2'
          have hss : List.Forall₂ Extends ss z1 := extends_trans_list h1 ha
          have := Extends.node nm fs (fs1 ++ fs2) ss z1 (z2 ++ ex2) hss
          simpa [List.append_assoc] using this
theorem extends_trans_list : ∀ {as bs cs : List RFolder},
    List.Forall₂ Extends as bs → List.Forall₂ Extends bs cs → List.Forall₂ Extends as cs
  | _, _, _, .nil, .nil => .nil
  | _, _, _, .cons hx ht, .cons hy hs => .cons (extends_trans hx hy) (extends_trans_list ht hs)
end

/-! ### Properties of `findFirstSub` -/

theorem findFirstSub_name : ∀ {nm : String} {ss : List RFolder} {i : Nat} {sub : RFolder},
    findFirstSub nm ss = some (i, sub) → (sub.name == nm) = true := by
  intro nm ss
  induction ss with
  | nil => intro i sub h; simp [findFirstSub] at h
  | cons s t ih =>
      intro i sub h
      simp only [findFirstSub] at h
      cases hns : (s.name == nm) with
      | true =>
          rw [if_pos hns] at h
          cases h
          exact hns
      | false =>
          rw [if_neg (by simp [hns])] at h
          rw [Option.map_eq_some'] at h
          obtain ⟨p, hp, hpair⟩ := h
          cases hpair
          exact ih (show findFirstSub nm t = some (p.1, p.2) from hp)

theorem findFirstSub_set : ∀ {nm : String} {ss : List RFolder} {i : Nat} {sub : RFolder}
    (sub' : RFolder), findFirstSub nm ss = some (i, sub) → (sub'.name == nm) = true →
    findFirstSub nm (ss.set i sub') = some (i, sub') := by
  intro nm ss
  induction ss with
  | nil => intro i sub sub' h _; simp [findFirstSub] at h
  | cons s t ih =>
      intro i sub sub' h hn'
      simp only [findFirstSub] at h
      cases hns : (s.name == nm) with
      | true =>
          rw [if_pos hns] at h
          cases h
          simp [findFirstSub, hn']
      | false =>
          rw [if_neg (by simp [hns])] at h
          rw [Option.map_eq_some'] at h
          obtain ⟨p, hp, hpair⟩ := h
          cases hpair
          have hrec := ih sub' (show findFirstSub nm t = some (p.1, p.2) from hp) hn'
          simp [List.set_cons_succ, findFirstSub, hns, hrec]

theorem findFirstSub_set_self : ∀ {nm : String} {ss : List RFolder} {i : Nat} {sub : RFolder},
    findFirstSub nm ss = some (i, sub) → ss.set i sub = ss := by
  intro nm ss
  induction ss with
  | nil => intro i sub h; simp [findFirstSub] at h
  | cons s t ih =>
      intro i sub h
      simp only [findFirstSub] at h
      cases hns : (s.name == nm) with
      | true =>
          rw [if_pos hns] at h
          cases h
          simp
      | false =>
          rw [if_neg (by simp [hns])] at h
          rw [Option.map_eq_some'] at h
          obtain ⟨p, hp, hpair⟩ := h
          cases hpair
          have hrec := ih (show findFirstSub nm t = some (p.1, p.2) from hp)
          simp [List.set_cons_succ, hrec]

theorem findFirstSub_append_last : ∀ {nm : String} {ss : List RFolder} (sub' : RFolder),
    findFirstSub nm ss = none → (sub'.name == nm) = true →
    findFirstSub nm (ss ++ [sub']) = some (ss.length, sub') := by
  intro nm ss
  induction ss with
  | nil => intro sub' _ hn'; simp [findFirstSub, hn']
  | cons s t ih =>
      intro sub' h hn'
      simp only [findFirstSub] at h
      cases hns : (s.name == nm) with
      | true => rw [if_pos hns] at h; cases h
      | false =>
          rw [if_neg (by simp [hns])] at h
          rw [Option.map_eq_none'] at h
          have hrec := ih sub' h hn'
          simp [findFirstSub, hns, hrec]

theorem findFirstSub_extends : ∀ {ss ss' : List RFolder} (ex : List RFolder)
    {nm : String} {i : Nat} {sub : RFolder},
    List.Forall₂ Extends ss ss' → findFirstSub nm ss = some (i, sub) →
    ∃ sub', findFirstSub nm (ss' ++ ex) = some (i, sub') ∧ Extends sub sub' := by
  intro ss ss' ex nm i sub hf
  induction hf generalizing i sub with
  | nil => intro h; simp [findFirstSub] at h
  | cons hrel htail ih =>
      rename_i a b as bs
      intro h
      simp only [findFirstSub] at h
      cases hns : (a.name == nm) with
      | true =>
          rw [if_pos hns] at h
          cases h
          have hbn : (b.name == nm) = true := by
            rw [Extends.name_eq hrel]; exact hns
          exact ⟨b, by simp [findFirstSub, hbn], hrel⟩
      | false =>
          rw [if_neg (by simp [hns])] at h
          rw [Option.map_eq_some'] at h
          obtain ⟨p, hp, hpair⟩ := h
          cases hpair
          obtain ⟨sub', hfind, hx⟩ :=
            ih (show findFirstSub nm as = some (p.1, p.2) from hp)
          have hbn : (b.name == nm) = false := by
            rw [Extends.name_eq hrel]; exact hns
          exact ⟨sub', by simp [findFirstSub, hbn, hfind], hx⟩

/-! ### Coverage: every local entry already present remotely

`coversEntry e r` states what the second upload-sync run finds: a local
file's name equals the download name of some remote file of `r`, and a
local directory's name matches a first remote sub-folder which in turn
covers the directory's entries. -/

mutual
def coversEntry : LocalEntry → RFolder → Prop
  | .file n, r => r.files.any (fun f => f.download_name == n) = true
  | .dir n ents, r => ∃ p, findFirstSub n r.subs = some p ∧ coversList ents p.2
def coversList : List LocalEntry → RFolder → Prop
  | [], _ => True
  | e :: es, r => coversEntry e r ∧ coversList es r
end

mutual
theorem coversEntry_mono : ∀ {e : LocalEntry} {r r' : RFolder},
    coversEntry e r → Extends r r' → coversEntry e r'
  | .file n, r, r', hc, hx => by
      obtain ⟨fs', hfs⟩ := hx.files_eq
      simp only [coversEntry] at hc ⊢
      rw [hfs]
      simp [List.any_append, hc]
  | .dir n ents, r, r', hc, hx => by
      simp only [coversEntry] at hc ⊢
      obtain ⟨p, hfind, hcov⟩ := hc
      obtain ⟨ss', ex, hsubs, hrel⟩ := hx.subs_rel
      obtain ⟨sub', hfind', hx'⟩ := findFirstSub_extends ex hrel hfind
      exact ⟨(p.1, sub'), by rw [hsubs]; exact hfind', coversList_mono hcov hx'⟩
theorem coversList_mono : ∀ {L : List LocalEntry} {r r' : RFolder},
    coversList L r → Extends r r' → coversList L r'
  | [], _, _, _, _ => trivial
  | e :: es, r, r', hc, hx => by
      simp only [coversList] at hc ⊢
      exact ⟨coversEntry_mono hc.1 hx, coversList_mono hc.2 hx⟩
end

/-! ### Upload-sync only extends the remote tree -/

theorem subs_setSub (r : RFolder) (i : Nat) (s : RFolder) :
    (r.setSub i s).subs = r.subs.set i s := by
  cases r; rfl

theorem subs_addSub (r : RFolder) (s : RFolder) :
    (r.addSub s).subs = r.subs ++ [s] := by
  cases r; rfl

theorem extends_addFile (r : RFolder) (f : RFile) : Extends r (r.addFile f) := by
  cases r with
  | node nm fs ss =>
      simpa [RFolder.addFile] using Extends.node nm fs [f] ss ss [] (extends_refl_list ss)

theorem extends_addSub (r : RFolder) (s : RFolder) : Extends r (r.addSub s) := by
  cases r with
  | node nm fs ss =>
      simpa [RFolder.addSub] using Extends.node nm fs [] ss ss [s] (extends_refl_list ss)

theorem forall₂_set_of_find : ∀ {nm : String} {ss : List RFolder} {i : Nat} {sub : RFolder}
    {sub' : RFolder}, findFirstSub nm ss = some (i, sub) → Extends sub sub' →
    List.Forall₂ Extends ss (ss.set i sub') := by
  intro nm ss
  induction ss with
  | nil => intro i sub sub' h _; simp [findFirstSub] at h
  | cons s t ih =>
      intro i sub sub' h hx
      simp only [findFirstSub] at h
      cases hns : (s.name == nm) with
      | true =>
          rw [if_pos hns] at h
          cases h
          exact .cons hx (extends_refl_list t)
      | false =>
          rw [if_neg (by simp [hns])] at h
          rw [Option.map_eq_some'] at h
          obtain ⟨p, hp, hpair⟩ := h
          cases hpair
          exact .cons (extends_refl s)
            (ih (show findFirstSub nm t = some (p.1, p.2) from hp) hx)

theorem extends_setSub {r : RFolder} {nm : String} {i : Nat} {sub : RFolder} (sub' : RFolder)
    (h : findFirstSub nm r.subs = some (i, sub)) (hx : Extends sub sub') :
    Extends r (r.setSub i sub') := by
  cases r with
  | node nmr fs ss =>
      have hf : List.Forall₂ Extends ss (ss.set i sub') :=
        forall₂_set_of_find (by simpa [RFolder.subs] using h) hx
      simpa [RFolder.setSub] using Extends.node nmr fs [] ss (ss.set i sub') [] hf

theorem setSub_find_self {r : RFolder} {nm : String} {i : Nat} {sub : RFolder}
    (h : findFirstSub nm r.subs = some (i, sub)) : r.setSub i sub = r := by
  cases r with
  | node nmr fs ss =>
      have := findFirstSub_set_self (by simpa [RFolder.subs] using h)
      simp [RFolder.setSub, this]

mutual
theorem uploadEntryF_extends : ∀ (ok : String → Bool) (e : LocalEntry) (r : RFolder),
    Extends r (uploadEntryF ok e r).2.1
  | ok, .file n, r => by
      cases h1 : r.files.any (fun f => f.download_name == n) with
      | true => simp [uploadEntryF, h1]; exact extends_refl r
      | false =>
          cases h2 : ok n with
          | true => simp [uploadEntryF, h1, h2]; exact extends_addFile r _
          | false => simp [uploadEntryF, h1, h2]; exact extends_refl r
  | ok, .dir n ents, r => by
      cases hfind : findFirstSub n r.subs with
      | some p =>
          have hx := uploadListF_extends ok ents p.2
          have hfind' : findFirstSub n r.subs = some (p.1, p.2) := by
            rw [Prod.mk.eta]; exact hfind
          simp only [uploadEntryF, hfind]
          exact extends_setSub _ hfind' hx
      | none =>
          simp only [uploadEntryF, hfind]
          exact extends_addSub r _
theorem uploadListF_extends : ∀ (ok : String → Bool) (L : List LocalEntry) (r : RFolder),
    Extends r (uploadListF ok L r).2.1
  | ok, [], r => by simp only [uploadListF]; exact extends_refl r
  | ok, e :: es, r => by
      have h1 := uploadEntryF_extends ok e r
      have h2 := uploadListF_extends ok es (uploadEntryF ok e r).2.1
      cases hb : (uploadEntryF ok e r).1 with
      | true => simp only [uploadListF, hb, if_true]; exact extends_trans h1 h2
      | false => simp only [uploadListF, hb]; simpa using h1
end

/-! ### A successful run covers the local tree, and a covered run is a no-op -/

mutual
theorem uploadEntryF_covers : ∀ (ok : String → Bool) (e : LocalEntry) (r : RFolder),
    (uploadEntryF ok e r).1 = true → coversEntry e (uploadEntryF ok e r).2.1
  | ok, .file n, r => by
      intro hs
      cases h1 : r.files.any (fun f => f.download_name == n) with
      | true => simpa [uploadEntryF, h1, coversEntry] using h1
      | false =>
          cases h2 : ok n with
          | true =>
              cases r with
              | node nmr fs ss =>
                  have hstep : uploadEntryF ok (.file n) (.node nmr fs ss) =
                      (true, .node nmr (fs ++ [⟨path_stem n, n⟩]) ss,
                        [Action.listFiles, Action.uploadFile n]) := by
                    simp only [uploadEntryF, RFolder.files] at h1 ⊢
                    simp [h1, h2, RFolder.addFile]
                  rw [hstep]
                  simp [coversEntry, RFolder.files, List.any_append]
          | false => simp [uploadEntryF, h1, h2] at hs
  | ok, .dir n ents, r => by
      intro hs
      cases hfind : findFirstSub n r.subs with
      | some p =>
          simp only [uploadEntryF, hfind] at hs ⊢
          have hcov := uploadListF_covers ok ents p.2 hs
          have hname : ((uploadListF ok ents p.2).2.1.name == n) = true := by
            rw [(uploadListF_extends ok ents p.2).name_eq]
            exact findFirstSub_name (show findFirstSub n r.subs = some (p.1, p.2) by
              rw [Prod.mk.eta]; exact hfind)
          refine ⟨(p.1, (uploadListF ok ents p.2).2.1), ?_, hcov⟩
          rw [subs_setSub]
          exact findFirstSub_set _ (show findFirstSub n r.subs = some (p.1, p.2) by
            rw [Prod.mk.eta]; exact hfind) hname
      | none =>
          simp only [uploadEntryF, hfind] at hs ⊢
          have hcov := uploadListF_covers ok ents (.node n [] []) hs
          have hname : ((uploadListF ok ents (.node n [] [])).2.1.name == n) = true := by
            rw [(uploadListF_extends ok ents (.node n [] [])).name_eq]
            simp [RFolder.name]
          refine ⟨(r.subs.length, (uploadListF ok ents (.node n [] [])).2.1), ?_, hcov⟩
          rw [subs_addSub]
          exact findFirstSub_append_last _ hfind hname
theorem uploadListF_covers : ∀ (ok : String → Bool) (L : List LocalEntry) (r : RFolder),
    (uploadListF ok L r).1 = true → coversList L (uploadListF ok L r).2.1
  | ok, [], r => by intro _; simp [uploadListF, coversList]
  | ok, e :: es, r => by
      intro hs
      cases hb : (uploadEntryF ok e r).1 with
      | false => simp [uploadListF, hb] at hs
      | true =>
          have hq : uploadListF ok (e :: es) r =
              ((uploadListF ok es (uploadEntryF ok e r).2.1).1,
               (uploadListF ok es (uploadEntryF ok e r).2.1).2.1,
               (uploadEntryF ok e r).2.2 ++ (uploadListF ok es (uploadEntryF ok e r).2.1).2.2) := by
            simp only [uploadListF, hb, if_true]
          rw [hq] at hs ⊢
          have hce := uploadEntryF_covers ok e r hb
          have hcl := uploadListF_covers ok es (uploadEntryF ok e r).2.1 hs
          have hx := uploadListF_extends ok es (uploadEntryF ok e r).2.1
          simp only [coversList]
          exact ⟨coversEntry_mono hce hx, hcl⟩
end

mutual
theorem uploadEntryF_noop : ∀ (ok : String → Bool) (e : LocalEntry) (r : RFolder),
    coversEntry e r →
    (uploadEntryF ok e r).1 = true ∧ (uploadEntryF ok e r).2.1 = r ∧
      (uploadEntryF ok e r).2.2.countP Action.isUpload = 0 ∧
      (uploadEntryF ok e r).2.2.countP Action.isCreate = 0
  | ok, .file n, r, hc => by
      simp only [coversEntry] at hc
      simp [uploadEntryF, hc, Action.isUpload, Action.isCreate]
  | ok, .dir n ents, r, hc => by
      simp only [coversEntry] at hc
      obtain ⟨p, hfind, hcov⟩ := hc
      obtain ⟨hb, hstate, hcu, hcc⟩ := uploadListF_noop ok ents p.2 hcov
      have hfind0 : findFirstSub n r.subs = some (p.1, p.2) := by
        rw [Prod.mk.eta]; exact hfind
      simp only [uploadEntryF, hfind0]
      refine ⟨hb, ?_, ?_, ?_⟩
      · rw [hstate]
        exact setSub_find_self hfind0
      · simp [List.countP_cons, Action.isUpload, hcu]
      · simp [List.countP_cons, Action.isCreate, hcc]
theorem uploadListF_noop : ∀ (ok : String → Bool) (L : List LocalEntry) (r : RFolder),
    coversList L r →
    (uploadListF ok L r).1 = true ∧ (uploadListF ok L r).2.1 = r ∧
      (uploadListF ok L r).2.2.countP Action.isUpload = 0 ∧
      (uploadListF ok L r).2.2.countP Action.isCreate = 0
  | ok, [], r, _ => by simp [uploadListF]
  | ok, e :: es, r, hc => by
      simp only [coversList] at hc
      obtain ⟨hce, hcl⟩ := hc
      obtain ⟨hb1, hs1, hu1, hc1⟩ := uploadEntryF_noop ok e r hce
      have hcl' : coversList es ((uploadEntryF ok e r).2.1) := by rw [hs1]; exact hcl
      obtain ⟨hb2, hs2, hu2, hc2⟩ :=
        uploadListF_noop ok es ((uploadEntryF ok e r).2.1) hcl'
      have hq : uploadListF ok (e :: es) r =
          ((uploadListF ok es (uploadEntryF ok e r).2.1).1,
           (uploadListF ok es (uploadEntryF ok e r).2.1).2.1,
           (uploadEntryF ok e r).2.2 ++ (uploadListF ok es (uploadEntryF ok e r).2.1).2.2) := by
        simp only [uploadListF, hb1, if_true]
      rw [hq]
      refine ⟨hb2, by rw [hs2, hs1], ?_, ?_⟩
      · simp [List.countP_append, hu1, hu2]
      · simp [List.countP_append, hc1, hc2]
end

/-! ### Fail-fast structure of the upload loop -/

theorem uploadListF_append_fail (ok : String → Bool) :
    ∀ (L1 : List LocalEntry) (e : LocalEntry) (L2 : List LocalEntry) (r : RFolder),
    (uploadListF ok L1 r).1 = true →
    (uploadEntryF ok e (uploadListF ok L1 r).2.1).1 = false →
    uploadListF ok (L1 ++ e :: L2) r =
      (false, (uploadEntryF ok e (uploadListF ok L1 r).2.1).2.1,
        (uploadListF ok L1 r).2.2 ++ (uploadEntryF ok e (uploadListF ok L1 r).2.1).2.2) := by
  intro L1
  induction L1 with
  | nil =>
      intro e L2 r _ hfail
      have hfail' : (uploadEntryF ok e r).1 = false := hfail
      simp only [uploadListF, hfail', List.nil_append]
      simp [uploadListF]
  | cons a L1 ih =>
      intro e L2 r hok hfail
      cases hb : (uploadEntryF ok a r).1 with
      | false => simp [uploadListF, hb] at hok
      | true =>
          have hq : ∀ (M : List LocalEntry), uploadListF ok (a :: M) r =
              ((uploadListF ok M (uploadEntryF ok a r).2.1).1,
               (uploadListF ok M (uploadEntryF ok a r).2.1).2.1,
               (uploadEntryF ok a r).2.2 ++ (uploadListF ok M (uploadEntryF ok a r).2.1).2.2) := by
            intro M
            simp only [uploadListF, hb, if_true]
          rw [hq] at hok
          rw [hq] at hfail
          rw [List.cons_append, hq]
          rw [ih e L2 (uploadEntryF ok a r).2.1 hok hfail]
          simp [hq, List.append_assoc]

theorem uploadEntryF_dir_result (ok : String → Bool) (n : String) (ents : List LocalEntry)
    (r : RFolder) :
    (uploadEntryF ok (.dir n ents) r).1 =
      (match findFirstSub n r.subs with
       | some p => (uploadListF ok ents p.2).1
       | none => (uploadListF ok ents (.node n [] [])).1) := by
  cases hfind : findFirstSub n r.subs <;> simp [uploadEntryF, hfind]

/-- C1: Upload-sync is idempotent.  If one run of `upload_folder` on the
local directory tree `dir nm ents` against remote folder `r` succeeds,
then a second run of `upload_folder` on the same tree against the
resulting remote state succeeds, leaves the remote state unchanged, and
its action trace contains zero file uploads and zero sub-folder
creations (every local file's name matches an existing remote download
name, every local directory name matches an existing remote sub-folder
name).  The server oracle of the second run is arbitrary because no
upload is ever attempted. -/
theorem upload_sync_idempotent (ok ok2 : String → Bool) (nm : String)
    (ents : List LocalEntry) (r : RFolder)
    (hfirst : (upload_folder ok (.entry (.dir nm ents)) r).1 = true) :
    (upload_folder ok2 (.entry (.dir nm ents))
        (upload_folder ok (.entry (.dir nm ents)) r).2.1).1 = true ∧
    (upload_folder ok2 (.entry (.dir nm ents))
        (upload_folder ok (.entry (.dir nm ents)) r).2.1).2.1 =
      (upload_folder ok (.entry (.dir nm ents)) r).2.1 ∧
    (upload_folder ok2 (.entry (.dir nm ents))
        (upload_folder ok (.entry (.dir nm ents)) r).2.1).2.2.countP Action.isUpload = 0 ∧
    (upload_folder ok2 (.entry (.dir nm ents))
        (upload_folder ok (.entry (.dir nm ents)) r).2.1).2.2.countP Action.isCreate = 0 := by
  have hcov := uploadListF_covers ok ents r hfirst
  exact uploadListF_noop ok2 ents (uploadListF ok ents r).2.1 hcov

/-- Witness for C1: a concrete successful first run (a file and a
sub-directory with a file, into an empty remote folder), checked by
kernel reduction, and the conclusion instantiated there. -/
theorem upload_sync_idempotent_witness :
    (upload_folder (fun _ => true)
        (.entry (.dir "photos" [.file "a.txt", .dir "d" [.file "b.jpg"]]))
        (.node "root" [] [])).1 = true ∧
    ((upload_folder (fun _ => true)
        (.entry (.dir "photos" [.file "a.txt", .dir "d" [.file "b.jpg"]]))
        (upload_folder (fun _ => true)
          (.entry (.dir "photos" [.file "a.txt", .dir "d" [.file "b.jpg"]]))
          (.node "root" [] [])).2.1).2.2.countP Action.isUpload = 0 ∧
     (upload_folder (fun _ => true)
        (.entry (.dir "photos" [.file "a.txt", .dir "d" [.file "b.jpg"]]))
        (upload_folder (fun _ => true)
          (.entry (.dir "photos" [.file "a.txt", .dir "d" [.file "b.jpg"]]))
          (.node "root" [] [])).2.1).2.2.countP Action.isCreate = 0) :=
  ⟨rfl, (upload_sync_idempotent (fun _ => true) (fun _ => true) "photos"
      [.file "a.txt", .dir "d" [.file "b.jpg"]] (.node "root" [] []) rfl).2.2⟩

/-! ## The resized-image upload pipeline (`GaudeamResizedImageUploader`)

`upload_folder_resized` (drive.py 637-690) snapshots the target folder's
file and sub-folder listings once, before its entry loop; a file entry
is skipped when its extension is not allowed, when its name contains a
configured skip fragment, or when a remote file with the derived target
download name (`stem + ".jpg"`) already exists in the snapshot;
otherwise the re-encoded image is uploaded under the target name.  A
directory entry reuses or creates the remote sub-folder and recurses
(the recursive `upload_folder_resized` call is inlined in the `dir`
case: the path is known to be a directory, and the callee re-fetches the
sub-folder's two listings first). -/

def allowed_extensions : List String := [".jpg", ".jpeg", ".png"]

def in_allowed_extensions (file_name : String) : Bool :=
  allowed_extensions.contains (str_to_lower (path_suffix file_name))

def in_skip_files (skip_file_names : List String) (file_name : String) : Bool :=
  skip_file_names.any (fun s => str_contains_sub (str_to_lower s) (str_to_lower file_name))

def get_target_name_from_file_path (file_name : String) : String :=
  path_stem file_name ++ ".jpg"

def file_name_exists (file_name : String) (files_in_folder : List RFile) : Bool :=
  files_in_folder.any (fun f => f.download_name == file_name)

mutual
def uploadResizedEntry (ok : String → Bool) (skips : List String) :
    LocalEntry → List RFile → List RFolder → Bool × List Action
  | .file n, files_snapshot, _ =>
      if !(in_allowed_extensions n) then (true, [])
      else if in_skip_files skips n then (true, [])
      else if file_name_exists (get_target_name_from_file_path n) files_snapshot then (true, [])
      else if ok n then (true, [Action.uploadFile (get_target_name_from_file_path n)])
      else (false, [Action.uploadFile (get_target_name_from_file_path n)])
  | .dir n ents, _, subs_snapshot =>
      match findFirstSub n subs_snapshot with
      | some p =>
          let q := uploadResizedList ok skips ents p.2.files p.2.subs
          (q.1, Action.listFiles :: Action.listFolders :: q.2)
      | none =>
          let q := uploadResizedList ok skips ents [] []
          (q.1, Action.createFolder n :: Action.listFiles :: Action.listFolders :: q.2)
def uploadResizedList (ok : String → Bool) (skips : List String) :
    List LocalEntry → List RFile → List RFolder → Bool × List Action
  | [], _, _ => (true, [])
  | e :: es, fs, ss =>
      let q1 := uploadResizedEntry ok skips e fs ss
      if q1.1 then
        let q2 := uploadResizedList ok skips es fs ss
        (q2.1, q1.2 ++ q2.2)
      else (false, q1.2)
end

def upload_folder_resized (ok : String → Bool) (skips : List String)
    (local_folder_path : LocalPath) (gaudeam_folder : RFolder) : Bool × List Action :=
  match local_folder_path with
  | .entry (.dir _ ents) =>
      let q := uploadResizedList ok skips ents gaudeam_folder.files gaudeam_folder.subs
      (q.1, Action.listFiles :: Action.listFolders :: q.2)
  | _ => (false, [])

theorem uploadResizedList_append_fail (ok : String → Bool) (skips : List String) :
    ∀ (L1 : List LocalEntry) (e : LocalEntry) (L2 : List LocalEntry)
      (fs : List RFile) (ss : List RFolder),
    (uploadResizedList ok skips L1 fs ss).1 = true →
    (uploadResizedEntry ok skips e fs ss).1 = false →
    uploadResizedList ok skips (L1 ++ e :: L2) fs ss =
      (false, (uploadResizedList ok skips L1 fs ss).2 ++ (uploadResizedEntry ok skips e fs ss).2) := by
  intro L1
  induction L1 with
  | nil =>
      intro e L2 fs ss _ hfail
      simp only [uploadListF, List.nil_append, uploadResizedList, hfail]
      simp
  | cons a L1 ih =>
      intro e L2 fs ss hok hfail
      cases hb : (uploadResizedEntry ok skips a fs ss).1 with
      | false => simp [uploadResizedList, hb] at hok
      | true =>
          have hq : ∀ (M : List LocalEntry), uploadResizedList ok skips (a :: M) fs ss =
              ((uploadResizedList ok skips M fs ss).1,
               (uploadResizedEntry ok skips a fs ss).2 ++ (uploadResizedList ok skips M fs ss).2) := by
            intro M
            simp only [uploadResizedList, hb, if_true]
          rw [hq] at hok
          rw [List.cons_append, hq]
          rw [ih e L2 fs ss hok hfail]
          simp [hq, List.append_assoc]

theorem uploadResizedEntry_dir_result (ok : String → Bool) (skips : List String)
    (n : String) (ents : List LocalEntry) (fs : List RFile) (ss : List RFolder) :
    (uploadResizedEntry ok skips (.dir n ents) fs ss).1 =
      (match findFirstSub n ss with
       | some p => (uploadResizedList ok skips ents p.2.files p.2.subs).1
       | none => (uploadResizedList ok skips ents [] []).1) := by
  cases hfind : findFirstSub n ss <;> simp [uploadResizedEntry, hfind]

/-- C9: in the resized pipeline the derived target download name is
always the source stem plus ".jpg" regardless of the source extension
(in particular both `photo.PNG` and `photo.JPEG` derive `photo.jpg`),
and a source file with an allowed extension whose derived name already
exists in the folder's file-listing snapshot is processed with no upload
action at all. -/
theorem resized_target_name_and_skip (ok : String → Bool) (skips : List String)
    (n : String) (files_snapshot : List RFile) (subs_snapshot : List RFolder)
    (hallowed : in_allowed_extensions n = true)
    (hexists : file_name_exists (get_target_name_from_file_path n) files_snapshot = true) :
    (∀ m : String, get_target_name_from_file_path m = path_stem m ++ ".jpg") ∧
    get_target_name_from_file_path "photo.PNG" = "photo.jpg" ∧
    get_target_name_from_file_path "photo.JPEG" = "photo.jpg" ∧
    uploadResizedEntry ok skips (.file n) files_snapshot subs_snapshot = (true, []) := by
  refine ⟨fun m => rfl, rfl, rfl, ?_⟩
  cases hskip : in_skip_files skips n with
  | true => simp [uploadResizedEntry, hallowed, hskip]
  | false => simp [uploadResizedEntry, hallowed, hskip, hexists]

/-- Witness for C9: `photo.PNG` has an allowed extension, derives
`photo.jpg`, and is skipped when `photo.jpg` is already listed. -/
theorem resized_target_name_and_skip_witness :
    in_allowed_extensions "photo.PNG" = true ∧
    file_name_exists (get_target_name_from_file_path "photo.PNG")
      [⟨"photo", "photo.jpg"⟩] = true ∧
    uploadResizedEntry (fun _ => true) [] (.file "photo.PNG")
      [⟨"photo", "photo.jpg"⟩] [] = (true, []) :=
  ⟨by decide, by decide,
    (resized_target_name_and_skip (fun _ => true) [] "photo.PNG"
      [⟨"photo", "photo.jpg"⟩] [] (by decide) (by decide)).2.2.2⟩

/-- C10: when the local path is not an existing directory,
`upload_folder` and `upload_folder_resized` both return `False` without
raising, with an unchanged remote state and an empty action trace — no
listing, creation, upload or deletion request is issued. -/
theorem non_directory_upload_returns_false (ok : String → Bool) (skips : List String)
    (lp : LocalPath) (r : RFolder) (h : lp.is_dir = false) :
    upload_folder ok lp r = (false, r, []) ∧
    upload_folder_resized ok skips lp r = (false, []) := by
  cases lp with
  | missing => exact ⟨rfl, rfl⟩
  | entry e =>
      cases e with
      | file n => exact ⟨rfl, rfl⟩
      | dir nm ents => simp [LocalPath.is_dir] at h

/-- Witness for C10 at the concrete non-directory path `missing`. -/
theorem non_directory_upload_returns_false_witness :
    LocalPath.is_dir .missing = false ∧
    upload_folder (fun _ => true) .missing (.node "root" [] []) =
      (false, .node "root" [] [], []) ∧
    upload_folder_resized (fun _ => true) [] .missing (.node "root" [] []) = (false, []) :=
  ⟨rfl,
    (non_directory_upload_returns_false (fun _ => true) [] .missing (.node "root" [] []) rfl).1,
    (non_directory_upload_returns_false (fun _ => true) [] .missing (.node "root" [] []) rfl).2⟩

/-- C8: upload failures are fail-fast in both `upload_folder` and
`upload_folder_resized`.  If the entries before `e` succeed and
processing `e` fails, the loop on `L1 ++ e :: L2` returns `False` with a
trace that ends at `e` — the entries of `L2` contribute nothing — and a
directory entry's success is exactly the success of its recursive call,
so a failure propagates upward through every recursive caller. -/
theorem upload_failure_fail_fast (ok : String → Bool) (skips : List String)
    (L1 : List LocalEntry) (e : LocalEntry) (L2 : List LocalEntry) (r : RFolder)
    (fs : List RFile) (ss : List RFolder)
    (h1 : (uploadListF ok L1 r).1 = true)
    (h2 : (uploadEntryF ok e (uploadListF ok L1 r).2.1).1 = false)
    (h3 : (uploadResizedList ok skips L1 fs ss).1 = true)
    (h4 : (uploadResizedEntry ok skips e fs ss).1 = false) :
    uploadListF ok (L1 ++ e :: L2) r =
      (false, (uploadEntryF ok e (uploadListF ok L1 r).2.1).2.1,
        (uploadListF ok L1 r).2.2 ++ (uploadEntryF ok e (uploadListF ok L1 r).2.1).2.2) ∧
    uploadResizedList ok skips (L1 ++ e :: L2) fs ss =
      (false, (uploadResizedList ok skips L1 fs ss).2 ++ (uploadResizedEntry ok skips e fs ss).2) ∧
    (∀ (n : String) (ents : List LocalEntry) (r' : RFolder),
      (uploadEntryF ok (.dir n ents) r').1 =
        (match findFirstSub n r'.subs with
         | some p => (uploadListF ok ents p.2).1
         | none => (uploadListF ok ents (.node n [] [])).1)) ∧
    (∀ (n : String) (ents : List LocalEntry) (fs' : List RFile) (ss' : List RFolder),
      (uploadResizedEntry ok skips (.dir n ents) fs' ss').1 =
        (match findFirstSub n ss' with
         | some p => (uploadResizedList ok skips ents p.2.files p.2.subs).1
         | none => (uploadResizedList ok skips ents [] []).1)) :=
  ⟨uploadListF_append_fail ok L1 e L2 r h1 h2,
   uploadResizedList_append_fail ok skips L1 e L2 fs ss h3 h4,
   fun n ents r' => uploadEntryF_dir_result ok n ents r',
   fun n ents fs' ss' => uploadResizedEntry_dir_result ok skips n ents fs' ss'⟩

/-- Witness for C8: the server rejects the upload of `x.jpg`; with
`L1 = []` and `L2 = [y.jpg]` both loops stop at `x.jpg`, return `False`,
and never process `y.jpg`. -/
theorem upload_failure_fail_fast_witness :
    (uploadListF (fun _ => false) [] (.node "root" [] [])).1 = true ∧
    (uploadEntryF (fun _ => false) (.file "x.jpg")
      (uploadListF (fun _ => false) [] (.node "root" [] [])).2.1).1 = false ∧
    (uploadResizedList (fun _ => false) [] [] [] []).1 = true ∧
    (uploadResizedEntry (fun _ => false) [] (.file "x.jpg") [] []).1 = false ∧
    uploadListF (fun _ => false) ([] ++ .file "x.jpg" :: [.file "y.jpg"]) (.node "root" [] []) =
      (false, (uploadEntryF (fun _ => false) (.file "x.jpg")
          (uploadListF (fun _ => false) [] (.node "root" [] [])).2.1).2.1,
        (uploadListF (fun _ => false) [] (.node "root" [] [])).2.2 ++
          (uploadEntryF (fun _ => false) (.file "x.jpg")
            (uploadListF (fun _ => false) [] (.node "root" [] [])).2.1).2.2) ∧
    uploadResizedList (fun _ => false) [] ([] ++ .file "x.jpg" :: [.file "y.jpg"]) [] [] =
      (false, (uploadResizedList (fun _ => false) [] [] [] []).2 ++
        (uploadResizedEntry (fun _ => false) [] (.file "x.jpg") [] []).2) :=
  ⟨rfl, rfl, rfl, rfl,
    (upload_failure_fail_fast (fun _ => false) [] [] (.file "x.jpg") [.file "y.jpg"]
      (.node "root" [] []) [] [] rfl rfl rfl rfl).1,
    (upload_failure_fail_fast (fun _ => false) [] [] (.file "x.jpg") [.file "y.jpg"]
      (.node "root" [] []) [] [] rfl rfl rfl rfl).2.1⟩

/-! ## Remote-orphan pruning (`delete_remote_orphan_files`, drive.py 594-629)

The pass lists the local directory: `localDirNames` are the names of its
sub-directories, `localTargetFileNames` the derived target names of its
files (allowed extension, not skip-listed, mapped to `stem + ".jpg"`).
Each remote sub-folder with no matching local directory is deleted (or
only logged in dry-run); a matching one is recursed into with the
corresponding local sub-directory — and, exactly as in the source, the
recursive call at drive.py line 620 does NOT pass `dry_run` along, so
the recursion always runs with the default `dry_run = False`.  Each
remote file whose download name is not among the local target names is
deleted (or logged).  `findLocalDir` returns the entries of the first
local sub-directory with the given name; it is `some` exactly when the
name is in `localDirNames` (directory names are unique on a real
filesystem). -/

def localDirNames (L : List LocalEntry) : List String :=
  L.filterMap (fun e => match e with
    | .dir n _ => some n
    | .file _ => none)

def localTargetFileNames (skips : List String) (L : List LocalEntry) : List String :=
  L.filterMap (fun e => match e with
    | .file n =>
        if in_allowed_extensions n && !(in_skip_files skips n) then
          some (get_target_name_from_file_path n)
        else none
    | .dir _ _ => none)

def findLocalDir (nm : String) : List LocalEntry → Option (List LocalEntry)
  | [] => none
  | .dir n ents :: rest => if n == nm then some ents else findLocalDir nm rest
  | .file _ :: rest => findLocalDir nm rest

/-- The second loop of the pass (`for gaudeam_sub_file in
gaudeam_folder.get_files()`): delete each remote file whose download
name derives from no local file; in dry-run mode only log. -/
def orphanFileActions (skips : List String) (L : List LocalEntry) (files : List RFile)
    (dry_run : Bool) : List Action :=
  files.filterMap (fun f =>
    if (localTargetFileNames skips L).contains f.download_name then none
    else if dry_run then none else some (Action.deleteFile f.download_name))

mutual
def delete_remote_orphan_files (skips : List String) (L : List LocalEntry) :
    RFolder → Bool → List Action
  | .node _ files subs, dry_run =>
      Action.listFolders :: orphanSubActions skips L subs dry_run ++
        Action.listFiles :: orphanFileActions skips L files dry_run
def orphanSubActions (skips : List String) (L : List LocalEntry) :
    List RFolder → Bool → List Action
  | [], _ => []
  | sub :: rest, dry_run =>
      (match findLocalDir sub.name L with
       | none => if dry_run then [] else [Action.deleteFolder sub.name]
       | some ents => delete_remote_orphan_files skips ents sub false) ++
        orphanSubActions skips L rest dry_run
end

mutual
theorem delete_remote_orphan_files_no_upload :
    ∀ (skips : List String) (L : List LocalEntry) (r : RFolder) (dry_run : Bool) (a : Action),
    a ∈ delete_remote_orphan_files skips L r dry_run → a.isUpload = false ∧ a.isCreate = false
  | skips, L, .node nm files subs, dry_run, a => by
      intro ha
      simp only [delete_remote_orphan_files] at ha
      rcases List.mem_cons.mp ha with h | h
      · subst h; exact ⟨rfl, rfl⟩
      rcases List.mem_append.mp h with h | h
      · exact orphanSubActions_no_upload skips L subs dry_run a h
      rcases List.mem_cons.mp h with h | h
      · subst h; exact ⟨rfl, rfl⟩
      · obtain ⟨f, _, heq⟩ := List.mem_filterMap.mp h
        split at heq
        · cases heq
        · split at heq
          · cases heq
          · cases heq
            exact ⟨rfl, rfl⟩
theorem orphanSubActions_no_upload :
    ∀ (skips : List String) (L : List LocalEntry) (subs : List RFolder) (dry_run : Bool)
      (a : Action),
    a ∈ orphanSubActions skips L subs dry_run → a.isUpload = false ∧ a.isCreate = false
  | skips, L, [], dry_run, a => by
      intro ha; simp [orphanSubActions] at ha
  | skips, L, sub :: rest, dry_run, a => by
      intro ha
      simp only [orphanSubActions] at ha
      rcases List.mem_append.mp ha with h | h
      · cases hfl : findLocalDir sub.name L with
        | none =>
            rw [hfl] at h
            cases dry_run with
            | true => simp at h
            | false =>
                simp at h
                subst h
                exact ⟨rfl, rfl⟩
        | some ents =>
            rw [hfl] at h
            exact delete_remote_orphan_files_no_upload skips ents sub false a h
      · exact orphanSubActions_no_upload skips L rest dry_run a h
end

/-- C5: remote-orphan pruning deletes exactly the unmatched remote
files.  The pass on a remote folder is the folder loop followed by the
file loop; a `deleteFile dn` action is produced by the file loop iff
some remote file has download name `dn` and `dn` is not among the
locally derivable target names; the whole recursive pass never contains
an upload or a sub-folder creation; and on the claim's concrete data
(remote download names `a.jpg`, `b.jpg`, `orphan.jpg`; local files
`a.jpg`, `b.png`) exactly `orphan.jpg` is deleted. -/
theorem remote_orphan_pruning_deletes_unmatched (skips : List String) (L : List LocalEntry)
    (nm : String) (files : List RFile) (subs : List RFolder) :
    (delete_remote_orphan_files skips L (.node nm files subs) false =
      Action.listFolders :: orphanSubActions skips L subs false ++
        Action.listFiles :: orphanFileActions skips L files false) ∧
    (∀ dn : String, Action.deleteFile dn ∈ orphanFileActions skips L files false ↔
      ∃ f ∈ files, f.download_name = dn ∧
        (localTargetFileNames skips L).contains dn = false) ∧
    (∀ a ∈ delete_remote_orphan_files skips L (.node nm files subs) false,
      a.isUpload = false ∧ a.isCreate = false) ∧
    delete_remote_orphan_files [] [.file "a.jpg", .file "b.png"]
      (.node "r" [⟨"a", "a.jpg"⟩, ⟨"b", "b.jpg"⟩, ⟨"orphan", "orphan.jpg"⟩] []) false =
      [Action.listFolders, Action.listFiles, Action.deleteFile "orphan.jpg"] := by
  refine ⟨rfl, ?_, ?_, ?_⟩
  · intro dn
    rw [orphanFileActions, List.mem_filterMap]
    constructor
    · rintro ⟨f, hf, heq⟩
      refine ⟨f, hf, ?_⟩
      split at heq
      · cases heq
      · split at heq
        · cases heq
        · cases heq
          rename_i hc _
          simp only [Bool.not_eq_true] at hc
          exact ⟨rfl, hc⟩
    · rintro ⟨f, hf, hdn, hc⟩
      refine ⟨f, hf, ?_⟩
      subst hdn
      simp only [hc]
      simp
  · exact delete_remote_orphan_files_no_upload skips L (.node nm files subs) false
  · rfl

/-- Witness for C5's quantified part: on the claim's concrete data the
file loop produces `deleteFile orphan.jpg`, obtained by applying the
theorem's equivalence with its existential discharged at the remote file
`⟨orphan, orphan.jpg⟩`. -/
theorem remote_orphan_pruning_deletes_unmatched_witness :
    Action.deleteFile "orphan.jpg" ∈ orphanFileActions [] [.file "a.jpg", .file "b.png"]
      [⟨"a", "a.jpg"⟩, ⟨"b", "b.jpg"⟩, ⟨"orphan", "orphan.jpg"⟩] false :=
  ((remote_orphan_pruning_deletes_unmatched [] [.file "a.jpg", .file "b.png"] "r"
      [⟨"a", "a.jpg"⟩, ⟨"b", "b.jpg"⟩, ⟨"orphan", "orphan.jpg"⟩] []).2.1
    "orphan.jpg").mpr ⟨⟨"orphan", "orphan.jpg"⟩, by decide, rfl, by decide⟩

/-- C6 evidence (code bug): `delete_remote_orphan_files` called with
`dry_run = True` still deletes below the first level, because the
recursive call at drive.py line 620 omits `dry_run` and the parameter
defaults to `False`: with a matching local sub-directory `d` whose
remote counterpart holds the unmatched file `orphan.jpg`, the dry run's
trace contains the `deleteFile orphan.jpg` request. -/
theorem dry_run_orphan_pruning_still_deletes :
    delete_remote_orphan_files [] [.dir "d" []]
      (.node "root" [] [.node "d" [⟨"orphan", "orphan.jpg"⟩] []]) true =
      [Action.listFolders, Action.listFolders, Action.listFiles,
       Action.deleteFile "orphan.jpg", Action.listFiles] ∧
    Action.deleteFile "orphan.jpg" ∈ delete_remote_orphan_files [] [.dir "d" []]
      (.node "root" [] [.node "d" [⟨"orphan", "orphan.jpg"⟩] []]) true :=
  ⟨rfl, by decide⟩

/-! ## Duplicate elimination (`delete_duplicates`, drive.py 532-574)

One invocation level of the pass: the listed sub-folders are sorted
ascending by name (`sorted(..., key=lambda f: f.get_name())`, a stable
sort modelled by insertion sort over Python's code-point string order),
then an adjacent scan pops items, keeps the first of every run of equal
names and deletes the rest (or only logs in dry-run); the identical
algorithm then runs over the files, comparing the display name
(`get_name()`, extension-stripped), not the download name.  The scan
returns (surviving items, deleted items). -/

structure ListedFolder where
  name : String
  folder_id : String
deriving DecidableEq, Repr

structure ListedFile where
  name : String
  download_name : String
  file_id : String
deriving DecidableEq, Repr

def ordered_insert {α : Type} (le : α → α → Bool) (a : α) : List α → List α
  | [] => [a]
  | b :: l => if le a b then a :: b :: l else b :: ordered_insert le a l

def sort_by {α : Type} (le : α → α → Bool) : List α → List α
  | [] => []
  | a :: l => ordered_insert le a (sort_by le l)

def delete_duplicates_scan {α : Type} (key : α → String) (dry_run : Bool) :
    α → List α → List α × List α
  | first, [] => ([first], [])
  | first, next :: rest =>
      if key first == key next then
        if dry_run then
          let r := delete_duplicates_scan key dry_run first rest
          (next :: r.1, r.2)
        else
          let r := delete_duplicates_scan key dry_run first rest
          (r.1, next :: r.2)
      else
        let r := delete_duplicates_scan key dry_run next rest
        (first :: r.1, r.2)

def delete_duplicates_pass {α : Type} (key : α → String) (dry_run : Bool) :
    List α → List α × List α
  | [] => ([], [])
  | x :: xs => delete_duplicates_scan key dry_run x xs

def delete_duplicates_level (dry_run : Bool) (sub_folders : List ListedFolder)
    (sub_files : List ListedFile) :
    (List ListedFolder × List ListedFolder) × (List ListedFile × List ListedFile) :=
  (delete_duplicates_pass (fun f => f.name) dry_run
      (sort_by (fun a b => str_le a.name b.name) sub_folders),
   delete_duplicates_pass (fun f => f.name) dry_run
      (sort_by (fun a b => str_le a.name b.name) sub_files))

/-- `adjacent_distinct key rs`: the keys of any two elements of adjacent
runs differ. -/
def adjacent_distinct {α : Type} (key : α → String) : List (List α) → Bool
  | [] => true
  | [_] => true
  | r :: s :: rest =>
      (r.all fun x => s.all fun y => !(key x == key y)) &&
        adjacent_distinct key (s :: rest)

/-- `IsRuns key rs`: every run is nonempty and key-constant, and
adjacent runs have distinct keys — the run decomposition of a list that
is sorted by key. -/
def IsRuns {α : Type} (key : α → String) (rs : List (List α)) : Bool :=
  rs.all (fun run => !run.isEmpty) &&
    rs.all (fun run => run.all fun x => run.all fun y => key x == key y) &&
    adjacent_distinct key rs

theorem delete_duplicates_scan_run {α : Type} (key : α → String) :
    ∀ (t : List α) (first : α) (rest : List α),
    (∀ a ∈ t, key a = key first) →
    (∀ h, rest.head? = some h → key h ≠ key first) →
    delete_duplicates_scan key false first (t ++ rest) =
      (first :: (delete_duplicates_pass key false rest).1,
        t ++ (delete_duplicates_pass key false rest).2) := by
  intro t
  induction t with
  | nil =>
      intro first rest _ hhead
      cases rest with
      | nil => simp [delete_duplicates_scan, delete_duplicates_pass]
      | cons y ys =>
          have hne : (key first == key y) = false := by
            have := hhead y rfl
            simp only [beq_eq_false_iff_ne, ne_eq]
            exact fun hk => this hk.symm
          simp [delete_duplicates_scan, hne, delete_duplicates_pass]
  | cons a t ih =>
      intro first rest hconst hhead
      have ha : (key first == key a) = true := by
        simp only [beq_iff_eq]
        exact (hconst a (by simp)).symm
      have hrec := ih first rest (fun b hb => hconst b (by simp [hb])) hhead
      simp [delete_duplicates_scan, ha, hrec]

theorem delete_duplicates_pass_runs {α : Type} (key : α → String) :
    ∀ (rs : List (List α)), IsRuns key rs = true →
    delete_duplicates_pass key false rs.flatten =
      (rs.flatMap (fun run => run.take 1), rs.flatMap (fun run => run.drop 1)) := by
  intro rs
  induction rs with
  | nil => intro _; simp [delete_duplicates_pass]
  | cons r rs ih =>
      intro hruns
      simp only [IsRuns, Bool.and_eq_true, List.all_eq_true] at hruns
      obtain ⟨⟨hne, hconst⟩, hadj⟩ := hruns
      cases r with
      | nil => exact absurd (hne [] (by simp)) (by simp)
      | cons x t =>
          have hconst' : ∀ a ∈ t, key a = key x := by
            intro a hat
            have := hconst (x :: t) (by simp)
            simp only [List.all_eq_true] at this
            exact (by simpa using this a (by simp [hat]) x (by simp) : key a = key x)
          have hhead : ∀ h, (rs.flatten).head? = some h → key h ≠ key x := by
            intro h hh
            cases rs with
            | nil => simp at hh
            | cons r2 rs2 =>
                cases r2 with
                | nil => exact absurd (hne [] (by simp)) (by simp)
                | cons y t2 =>
                    simp only [List.flatten_cons, List.cons_append, List.head?_cons] at hh
                    cases hh
                    simp only [adjacent_distinct, Bool.and_eq_true, List.all_eq_true] at hadj
                    have := hadj.1 x (by simp) h (by simp)
                    simp only [Bool.not_eq_true', beq_eq_false_iff_ne, ne_eq] at this
                    exact fun hk => this hk.symm
          have hstep := delete_duplicates_scan_run key t x (rs.flatten) hconst' hhead
          have hrest : IsRuns key rs = true := by
            simp only [IsRuns, Bool.and_eq_true, List.all_eq_true]
            refine ⟨⟨fun run hr => hne run (by simp [hr]),
              fun run hr => hconst run (by simp [hr])⟩, ?_⟩
            cases rs with
            | nil => simp [adjacent_distinct]
            | cons r2 rs2 =>
                simp only [adjacent_distinct, Bool.and_eq_true] at hadj
                exact hadj.2
          have hih := ih hrest
          simp only [List.flatten_cons, List.cons_append, delete_duplicates_pass]
          rw [hstep, hih]
          simp

/-- C4: duplicate elimination keeps exactly the first of each name-run.
If the sub-folders sorted ascending by name decompose into runs of
identical names (and likewise the files, by display name — the download
names of the files are unconstrained), then the scan keeps exactly the
first element of every run and deletes exactly the remaining elements
of every run, folders and files alike. -/
theorem delete_duplicates_keeps_first_of_runs
    (folderRuns : List (List ListedFolder)) (fileRuns : List (List ListedFile))
    (sub_folders : List ListedFolder) (sub_files : List ListedFile)
    (hfr : IsRuns (fun f => f.name) folderRuns = true)
    (hir : IsRuns (fun f => f.name) fileRuns = true)
    (hsf : sort_by (fun a b => str_le a.name b.name) sub_folders = folderRuns.flatten)
    (hsi : sort_by (fun a b => str_le a.name b.name) sub_files = fileRuns.flatten) :
    delete_duplicates_level false sub_folders sub_files =
      ((folderRuns.flatMap (fun run => run.take 1),
        folderRuns.flatMap (fun run => run.drop 1)),
       (fileRuns.flatMap (fun run => run.take 1),
        fileRuns.flatMap (fun run => run.drop 1))) := by
  rw [delete_duplicates_level, hsf, hsi,
    delete_duplicates_pass_runs (fun f => f.name) folderRuns hfr,
    delete_duplicates_pass_runs (fun f => f.name) fileRuns hir]

/-- Witness for C4: sorted sub-folders named [A, A, B, B, B, C] — one A,
one B, one C survive and exactly the 3 later duplicates are deleted —
and two files sharing the display name `x` but with different download
names, of which the first survives and the second is deleted. -/
theorem delete_duplicates_keeps_first_of_runs_witness :
    IsRuns (fun f : ListedFolder => f.name)
      [[⟨"A", "f1"⟩, ⟨"A", "f2"⟩], [⟨"B", "f3"⟩, ⟨"B", "f4"⟩, ⟨"B", "f5"⟩], [⟨"C", "f6"⟩]] = true ∧
    IsRuns (fun f : ListedFile => f.name)
      [[⟨"x", "x.jpg", "g1"⟩, ⟨"x", "x.png", "g2"⟩]] = true ∧
    delete_duplicates_level false
      [⟨"A", "f1"⟩, ⟨"A", "f2"⟩, ⟨"B", "f3"⟩, ⟨"B", "f4"⟩, ⟨"B", "f5"⟩, ⟨"C", "f6"⟩]
      [⟨"x", "x.jpg", "g1"⟩, ⟨"x", "x.png", "g2"⟩] =
      (([⟨"A", "f1"⟩, ⟨"B", "f3"⟩, ⟨"C", "f6"⟩],
        [⟨"A", "f2"⟩, ⟨"B", "f4"⟩, ⟨"B", "f5"⟩]),
       ([⟨"x", "x.jpg", "g1"⟩], [⟨"x", "x.png", "g2"⟩])) :=
  ⟨by decide, by decide,
    delete_duplicates_keeps_first_of_runs
      [[⟨"A", "f1"⟩, ⟨"A", "f2"⟩], [⟨"B", "f3"⟩, ⟨"B", "f4"⟩, ⟨"B", "f5"⟩], [⟨"C", "f6"⟩]]
      [[⟨"x", "x.jpg", "g1"⟩, ⟨"x", "x.png", "g2"⟩]]
      [⟨"A", "f1"⟩, ⟨"A", "f2"⟩, ⟨"B", "f3"⟩, ⟨"B", "f4"⟩, ⟨"B", "f5"⟩, ⟨"C", "f6"⟩]
      [⟨"x", "x.jpg", "g1"⟩, ⟨"x", "x.png", "g2"⟩]
      (by decide) (by decide) (by decide) (by decide)⟩

/-! ## Cleanup delete failures (drive.py 165-176, 454-466, 532-574)

`GaudeamDriveFolder.delete` raises `IgiturError` on a non-200 response
(drive.py 176) — modelled as `Except.error` — while
`GaudeamDriveFile.delete` logs the error and returns `False` (drive.py
465-466).  `delete_duplicates_with_failures` is the duplicate pass with
a server that fails the deletion of the given ids: the folder scan
aborts with the raised error at the first failing folder delete (the
exception propagates out of the loop), the file scan records every
attempt with its boolean outcome and always runs to completion; the
file scan is never reached when the folder scan raised. -/

def folder_delete (failing_folder_ids : List String) (folder_id : String) :
    Except IgiturErr Bool :=
  if failing_folder_ids.contains folder_id then
    .error (.remote "Error deleting folder")
  else .ok true

def file_delete (failing_file_ids : List String) (file_id : String) : Bool :=
  !(failing_file_ids.contains file_id)

def dup_folder_delete_scan (fails : List String) : ListedFolder → List ListedFolder →
    List String × Option IgiturErr
  | _, [] => ([], none)
  | first, next :: rest =>
      if first.name == next.name then
        match folder_delete fails next.folder_id with
        | .error e => ([], some e)
        | .ok _ =>
            let r := dup_folder_delete_scan fails first rest
            (next.folder_id :: r.1, r.2)
      else dup_folder_delete_scan fails next rest

def dup_file_delete_scan (fails : List String) : ListedFile → List ListedFile →
    List (String × Bool)
  | _, [] => []
  | first, next :: rest =>
      if first.name == next.name then
        (next.file_id, file_delete fails next.file_id) ::
          dup_file_delete_scan fails first rest
      else dup_file_delete_scan fails next rest

def delete_duplicates_with_failures (fails_folder fails_file : List String)
    (sub_folders : List ListedFolder) (sub_files : List ListedFile) :
    (List String × Option IgiturErr) × List (String × Bool) :=
  let folder_result :=
    match sort_by (fun a b => str_le a.name b.name) sub_folders with
    | [] => ([], none)
    | x :: xs => dup_folder_delete_scan fails_folder x xs
  match folder_result.2 with
  | some _ => (folder_result, [])
  | none =>
      (folder_result,
        match sort_by (fun a b => str_le a.name b.name) sub_files with
        | [] => []
        | x :: xs => dup_file_delete_scan fails_file x xs)

/-- C7 evidence (code bug): a failing *folder* delete aborts the
duplicate-elimination pass with a raised `IgiturError` instead of being
logged and skipped — with sorted sub-folders [A(f1), A(f2), B(f3),
B(f4)] and the server failing the delete of `f2`, the pass ends in the
error, the duplicate `f4` is never deleted, the file scan never runs,
and no success flag is accumulated; by contrast a failing *file* delete
only records `False` and the pass completes. -/
theorem cleanup_folder_delete_failure_aborts_pass :
    delete_duplicates_with_failures ["f2"] []
      [⟨"A", "f1"⟩, ⟨"A", "f2"⟩, ⟨"B", "f3"⟩, ⟨"B", "f4"⟩]
      [⟨"x", "x.jpg", "g1"⟩, ⟨"x", "x.png", "g2"⟩] =
      (([], some (.remote "Error deleting folder")), []) ∧
    delete_duplicates_with_failures [] ["g2"] []
      [⟨"x", "x.jpg", "g1"⟩, ⟨"x", "x.png", "g2"⟩] =
      (([], none), [("g2", false)]) :=
  ⟨rfl, rfl⟩

/-- C2: ownership inheritance on sub-folder creation.  The create
request depends only on the parent's owner type: `Group` copies
`owner_type` and the parent's `restrict_to.id`; `GroupMember` copies
`owner_type` with a null `restrict_to_id`; a null owner type yields both
null; any other owner type raises (no create request is issued — the
model returns `.error` carrying no request). -/
theorem create_sub_folder_ownership (props : FolderProperties) (parent_folder_id : String)
    (name : String) (description : String) :
    (props.owner_type = some "Group" → ∀ rid : Nat, props.restrict_to = some rid →
      create_sub_folder_request props parent_folder_id name description =
        .ok ⟨description, name, props.owner_id, parent_folder_id, some "Group", some rid⟩) ∧
    (props.owner_type = some "GroupMember" →
      create_sub_folder_request props parent_folder_id name description =
        .ok ⟨description, name, props.owner_id, parent_folder_id, some "GroupMember", none⟩) ∧
    (props.owner_type = none →
      create_sub_folder_request props parent_folder_id name description =
        .ok ⟨description, name, props.owner_id, parent_folder_id, none, none⟩) ∧
    (∀ s : String, props.owner_type = some s → s ≠ "Group" → s ≠ "GroupMember" →
      create_sub_folder_request props parent_folder_id name description =
        .error (.configuration
          "cannot create file as parent is not owned by GroupMember or Group")) := by
  refine ⟨?_, ?_, ?_, ?_⟩
  · intro h rid hr
    simp [create_sub_folder_request, h, hr]
  · intro h
    simp [create_sub_folder_request, h]
  · intro h
    simp [create_sub_folder_request, h]
  · intro s h hg hm
    simp only [create_sub_folder_request, h]

/-- Witness for C2: all four owner-type cases at concrete parents
(`restrict_to.id = 42` in the Group case, `Owner` as the unsupported
type). -/
theorem create_sub_folder_ownership_witness :
    create_sub_folder_request ⟨some "Group", some 7, some 42⟩ "p" "n" "" =
      .ok ⟨"", "n", some 7, "p", some "Group", some 42⟩ ∧
    create_sub_folder_request ⟨some "GroupMember", some 7, none⟩ "p" "n" "" =
      .ok ⟨"", "n", some 7, "p", some "GroupMember", none⟩ ∧
    create_sub_folder_request ⟨none, some 7, none⟩ "p" "n" "" =
      .ok ⟨"", "n", some 7, "p", none, none⟩ ∧
    create_sub_folder_request ⟨some "Owner", some 7, none⟩ "p" "n" "" =
      .error (.configuration
        "cannot create file as parent is not owned by GroupMember or Group") :=
  ⟨(create_sub_folder_ownership ⟨some "Group", some 7, some 42⟩ "p" "n" "").1 rfl 42 rfl,
   (create_sub_folder_ownership ⟨some "GroupMember", some 7, none⟩ "p" "n" "").2.1 rfl,
   (create_sub_folder_ownership ⟨none, some 7, none⟩ "p" "n" "").2.2.1 rfl,
   (create_sub_folder_ownership ⟨some "Owner", some 7, none⟩ "p" "n" "").2.2.2 "Owner" rfl
     (by decide) (by decide)⟩

/-! ## The pagination loop requests offsets 0, 80, 160, ... -/

theorem cons_map_range (L off K : Nat) :
    off :: (List.range K).map (fun i => off + L + L * i) =
      (List.range (K + 1)).map (fun i => off + L * i) := by
  rw [List.range_succ_eq_map, List.map_cons, List.map_map]
  have h2 : (List.range K).map (fun i => off + L + L * i) =
      (List.range K).map ((fun i => off + L * i) ∘ Nat.succ) := by
    refine List.map_congr_left ?_
    intro a _
    simp only [Function.comp_apply, Nat.succ_eq_add_one]
    ring
  rw [h2]
  simp

theorem list_children_loop_offsets (keep : RawEntry → Bool) (entries : List RawEntry) :
    ∀ offset : Nat, (list_children_loop keep entries offset).2 =
      (List.range ((entries.length - offset) / DIRECTORY_LIST_LIMIT + 1)).map
        (fun i => offset + DIRECTORY_LIST_LIMIT * i)
  | offset => by
      rw [list_children_loop]
      by_cases h0 : (pageAt entries offset).isEmpty = true
      · rw [if_pos h0]
        have hlen : entries.length ≤ offset := by
          simp only [pageAt, List.isEmpty_iff, List.take_eq_nil_iff,
            DIRECTORY_LIST_LIMIT] at h0
          rcases h0 with h0 | h0
          · exact absurd h0 (by norm_num)
          · exact (List.drop_eq_nil_iff).mp h0
        have hz : entries.length - offset = 0 := by omega
        simp [hz, List.range_succ]
      · rw [if_neg h0]
        by_cases hshort : (pageAt entries offset).length < DIRECTORY_LIST_LIMIT
        · rw [dif_pos hshort]
          have hlt : entries.length - offset < DIRECTORY_LIST_LIMIT := by
            simp only [pageAt, List.length_take, List.length_drop,
              DIRECTORY_LIST_LIMIT] at hshort ⊢
            omega
          have hz : (entries.length - offset) / DIRECTORY_LIST_LIMIT = 0 :=
            Nat.div_eq_of_lt hlt
          simp [hz, List.range_succ]
        · rw [dif_neg hshort]
          have hnz : offset < entries.length := by
            by_contra hc
            push_neg at hc
            have : entries.drop offset = [] := List.drop_eq_nil_of_le hc
            simp [pageAt, this] at h0
          have h2 : DIRECTORY_LIST_LIMIT ≤ entries.length - offset := by
            simp only [pageAt, List.length_take, List.length_drop, Nat.not_lt] at hshort
            omega
          have ih := list_children_loop_offsets keep entries (offset + DIRECTORY_LIST_LIMIT)
          have hdiv : (entries.length - offset) / DIRECTORY_LIST_LIMIT =
              (entries.length - (offset + DIRECTORY_LIST_LIMIT)) / DIRECTORY_LIST_LIMIT + 1 := by
            have h80 : 0 < DIRECTORY_LIST_LIMIT := by simp [DIRECTORY_LIST_LIMIT]
            rw [Nat.div_eq_sub_div h80 h2, Nat.sub_sub]
          show offset :: (list_children_loop keep entries (offset + DIRECTORY_LIST_LIMIT)).2 = _
          rw [ih, hdiv]
          exact cons_map_range DIRECTORY_LIST_LIMIT offset _
termination_by offset => entries.length - offset
decreasing_by
  simp only [DIRECTORY_LIST_LIMIT]
  omega

/-- C3: pagination stops on the first short page.  Both
`get_sub_folders` and `get_files` issue requests exactly at offsets
`0, 80, 160, ..., 80 * (n / 80)` for a listing of `n` entries, so every
requested page except the last is full (length 80) and no request is
issued after a short page has been received; a listing with 85 entries
causes exactly the two requests at offsets 0 and 80. -/
theorem pagination_stops_on_short_page (entries : List RawEntry) :
    (get_sub_folders entries).2 =
      (List.range (entries.length / DIRECTORY_LIST_LIMIT + 1)).map
        (fun i => DIRECTORY_LIST_LIMIT * i) ∧
    (get_files entries).2 =
      (List.range (entries.length / DIRECTORY_LIST_LIMIT + 1)).map
        (fun i => DIRECTORY_LIST_LIMIT * i) ∧
    (∀ i : Nat, i + 1 < (get_sub_folders entries).2.length →
      (pageAt entries (DIRECTORY_LIST_LIMIT * i)).length = DIRECTORY_LIST_LIMIT) ∧
    (entries.length = 85 →
      (get_sub_folders entries).2 = [0, 80] ∧ (get_files entries).2 = [0, 80]) := by
  have hsub := list_children_loop_offsets is_folder_entry entries 0
  have hfil := list_children_loop_offsets is_file_entry entries 0
  simp only [Nat.sub_zero, Nat.zero_add] at hsub hfil
  have hsub' : (get_sub_folders entries).2 =
      (List.range (entries.length / DIRECTORY_LIST_LIMIT + 1)).map
        (fun i => DIRECTORY_LIST_LIMIT * i) := by
    rw [get_sub_folders, hsub]
  have hfil' : (get_files entries).2 =
      (List.range (entries.length / DIRECTORY_LIST_LIMIT + 1)).map
        (fun i => DIRECTORY_LIST_LIMIT * i) := by
    rw [get_files, hfil]
  refine ⟨hsub', hfil', ?_, ?_⟩
  · intro i hi
    rw [hsub'] at hi
    simp only [List.length_map, List.length_range] at hi
    have hle : DIRECTORY_LIST_LIMIT * (i + 1) ≤ entries.length := by
      have h1 : i + 1 ≤ entries.length / DIRECTORY_LIST_LIMIT := by omega
      calc DIRECTORY_LIST_LIMIT * (i + 1)
          ≤ DIRECTORY_LIST_LIMIT * (entries.length / DIRECTORY_LIST_LIMIT) :=
            Nat.mul_le_mul_left _ h1
        _ ≤ entries.length := Nat.mul_div_le entries.length DIRECTORY_LIST_LIMIT
    simp only [pageAt, List.length_take, List.length_drop, DIRECTORY_LIST_LIMIT] at hle ⊢
    omega
  · intro h85
    rw [hsub', hfil', h85]
    constructor <;> decide

/-- Witness for C3's 85-entry part: a concrete 85-entry listing causes
exactly the two requests at offsets 0 and 80, in both loops. -/
theorem pagination_stops_on_short_page_witness :
    (List.replicate 85 (⟨"Folder", "x"⟩ : RawEntry)).length = 85 ∧
    (get_sub_folders (List.replicate 85 ⟨"Folder", "x"⟩)).2 = [0, 80] ∧
    (get_files (List.replicate 85 ⟨"Folder", "x"⟩)).2 = [0, 80] :=
  ⟨by simp,
   ((pagination_stops_on_short_page (List.replicate 85 ⟨"Folder", "x"⟩)).2.2.2 (by simp)).1,
   ((pagination_stops_on_short_page (List.replicate 85 ⟨"Folder", "x"⟩)).2.2.2 (by simp)).2⟩

end Igitur
